import Mathlib

/-!
Shallow embedding of `src/mode_transfers.js`, a two-script event extractor:

* the first script streams ERC-20 `Transfer` logs and appends rows
  `block_number,timestamp,tx_hash,from_address,to_address,amount` to a CSV file;
* the second script streams `Mint` and `Burn` logs (two sequential passes over
  the same output file) and appends rows
  `block_number,timestamp,tx_hash,sender_address,to_address,amount0,amount1,event_type`.

Modelling conventions:

* JavaScript strings are modelled by `String`; the JS string operations used by
  the source (`slice`, `startsWith`, truthiness) are re-defined below on
  `String.data` so that their behaviour is fully transparent to proofs.
* A field that may be `undefined`/absent is an `Option`.
* Log topic slots are dynamically typed in JS; `JsVal` distinguishes an absent
  value, a string, and a truthy non-string value (on which `.slice` raises a
  `TypeError`, caught by the per-log `try/catch`).
* `BigInt("0x" + s)` is modelled by `parseHex`: it fails exactly when `s` is
  empty or contains a character outside `[0-9a-fA-F]`.
* The output file is modelled as the list of its lines: `fs.writeFileSync`
  of the header produces `[header]`, each `fs.appendFileSync` of a row appends
  one line.
* The remote stream is modelled as the list of responses `stream.recv()`
  yields: a batch, the `null` end-of-chain sentinel, or a thrown transport
  error.  The driving loop consumes them in order.
* `process.exit(1)` in the top-level `.catch` is modelled as exit code `1`,
  normal termination as exit code `0`.
-/

deriving instance DecidableEq for Except

/-- Dynamically typed JavaScript value as it matters to this program: absent
(`undefined`/`null`), a string, or a truthy non-string value. -/
inductive JsVal where
  | und : JsVal
  | str : String → JsVal
  | other : JsVal
  deriving DecidableEq

/-- JavaScript truthiness for the values of `JsVal`. -/
def JsVal.truthy : JsVal → Bool
  | .und => false
  | .str s => !(s == "")
  | .other => true

/-- JavaScript `v.slice(-40)`: on a string, the final 40 characters (the whole
string when shorter); on anything else a `TypeError` is thrown. -/
def JsVal.sliceLast40 : JsVal → Except Unit String
  | .str s => .ok ⟨s.data.drop (s.data.length - 40)⟩
  | _ => .error ()

/-- JavaScript `s.startsWith("0x")`. -/
def startsWith0x (s : String) : Bool :=
  match s.data with
  | '0' :: 'x' :: _ => true
  | _ => false

/-- JavaScript `s.slice(2)` on the data payload: drop the `0x` prefix. -/
def jsDrop2 (s : String) : String := ⟨s.data.drop 2⟩

/-- The `0x`-normalisation applied to `log.data` before parsing
(`log.data.startsWith('0x') ? log.data.slice(2) : log.data`). -/
def strip0x (s : String) : String := if startsWith0x s then jsDrop2 s else s

/-- JavaScript `s.slice(a, b)` for `0 ≤ a ≤ b`. -/
def jsSlice (s : String) (a b : Nat) : String := ⟨(s.data.take b).drop a⟩

/-- Numeric value of one hexadecimal digit, `none` on any other character;
this is the digit grammar accepted by `BigInt` hexadecimal literals. -/
def hexDigitVal (c : Char) : Option Nat :=
  if '0' ≤ c ∧ c ≤ '9' then some (c.toNat - '0'.toNat)
  else if 'a' ≤ c ∧ c ≤ 'f' then some (c.toNat - 'a'.toNat + 10)
  else if 'A' ≤ c ∧ c ≤ 'F' then some (c.toNat - 'A'.toNat + 10)
  else none

/-- One step of base-16 accumulation over a character. -/
def hexStep (acc : Option Nat) (c : Char) : Option Nat :=
  acc.bind fun n => (hexDigitVal c).map fun d => n * 16 + d

/-- JavaScript `BigInt("0x" ++ s)`: fails (throws) when `s` is empty or
contains a non-hexadecimal character, otherwise the base-16 value of `s`. -/
def parseHex (s : String) : Option Nat :=
  if s.data = [] then none
  else s.data.foldl hexStep (some 0)

/-- Big-endian positional value of a list of base-16 digits: the head is the
most significant digit. -/
def hexValBE : List Nat → Nat
  | [] => 0
  | d :: ds => d * 16 ^ ds.length + hexValBE ds

/-- Amount decoding of the first script (lines 138–149): the whole data
payload, `0x`-normalised, is parsed as one big-endian unsigned integer and
rendered in decimal; a falsy payload or a failed parse yields `"0"`. -/
def decodeAmount : Option String → String
  | none => "0"
  | some s =>
    if s = "" then "0"
    else
      match parseHex (strip0x s) with
      | some n => Nat.repr n
      | none => "0"

/-- Amount decoding of the second script (lines 331–351): the `0x`-normalised
payload must hold at least 128 hex characters; the first 64 characters are
`amount0`, characters 64–127 are `amount1`, both rendered in decimal.  A falsy
payload, a short payload, or a failed parse of either word yields
`("0", "0")`. -/
def decodeAmounts : Option String → String × String
  | none => ("0", "0")
  | some s =>
    if s = "" then ("0", "0")
    else
      let cleanData := strip0x s
      if 128 ≤ cleanData.data.length then
        match parseHex (jsSlice cleanData 0 64), parseHex (jsSlice cleanData 64 128) with
        | some a, some b => (Nat.repr a, Nat.repr b)
        | _, _ => ("0", "0")
      else ("0", "0")

/-- Address extraction shared by both scripts (lines 112–131): prefer the named
slot (`topic1`/`topic2`) when truthy; otherwise, when the address is still
`"unknown"` and a topics array of length greater than `i` is present, use entry
`i` of the array.  `.slice` on a non-string entry throws (caught by the
per-log handler). -/
def extractAddress (slot : JsVal) (topics : Option (List JsVal)) (i : Nat) :
    Except Unit String :=
  match
    (if slot.truthy then
      match slot.sliceLast40 with
      | .ok s => .ok ("0x" ++ s)
      | .error e => .error e
    else .ok "unknown" : Except Unit String) with
  | .error e => .error e
  | .ok a =>
    match topics with
    | some ts =>
      if a = "unknown" ∧ i < ts.length then
        match (ts.getD i .und).sliceLast40 with
        | .ok s => .ok ("0x" ++ s)
        | .error e => .error e
      else .ok a
    | none => .ok a

/-- Block record of a batch, as consumed by the source: `number` and an
optionally present `timestamp`. -/
structure BlockRecord where
  number : Nat
  timestamp : Option String
  deriving DecidableEq

/-- Log record of a batch, with the fields the source reads. -/
structure LogRecord where
  blockNumber : Option Nat
  transactionHash : Option String
  topic0 : Option String
  topic1 : JsVal
  topic2 : JsVal
  topics : Option (List JsVal)
  data : Option String
  deriving DecidableEq

/-- JavaScript `log.blockNumber || ""`: keeps the number exactly when it is
present and non-zero (`0` is falsy), so the result is either a number or the
empty string, modelled as `Option Nat`. -/
def jsNumOrEmpty : Option Nat → Option Nat
  | some n => if n = 0 then none else some n
  | none => none

/-- Decoded row of the first script, one CSV line. -/
structure Row where
  blockNumber : String
  timestamp : String
  txHash : String
  fromAddress : String
  toAddress : String
  amount : String
  deriving DecidableEq

/-- Decoded row of the second script, one CSV line. -/
structure Row2 where
  blockNumber : String
  timestamp : String
  txHash : String
  senderAddress : String
  toAddress : String
  amount0 : String
  amount1 : String
  eventType : String
  deriving DecidableEq

/-- Per-log processing of the first script (body of the `try` on lines
105–155): block/timestamp join, address extraction, amount decode.  An
uncaught exception inside the body is the `Except.error` case and is handled
by the enclosing per-log `catch`. -/
def processLog (blocks : List BlockRecord) (log : LogRecord) : Except Unit Row :=
  let bn := jsNumOrEmpty log.blockNumber
  let blockData := blocks.find? fun b => bn == some b.number
  let timestamp := (blockData.bind BlockRecord.timestamp).getD ""
  let txHash := log.transactionHash.getD ""
  match extractAddress log.topic1 log.topics 1, extractAddress log.topic2 log.topics 2 with
  | .ok fromAddress, .ok toAddress =>
    .ok { blockNumber := match bn with | some n => Nat.repr n | none => ""
          timestamp := timestamp
          txHash := txHash
          fromAddress := fromAddress
          toAddress := toAddress
          amount := decodeAmount log.data }
  | .error e, _ => .error e
  | _, .error e => .error e

/-- Per-log processing of the second script (body of the `try` on lines
299–357), producing a dual-amount row tagged with the pass's event type. -/
def processLog2 (eventType : String) (blocks : List BlockRecord) (log : LogRecord) :
    Except Unit Row2 :=
  let bn := jsNumOrEmpty log.blockNumber
  let blockData := blocks.find? fun b => bn == some b.number
  let timestamp := (blockData.bind BlockRecord.timestamp).getD ""
  let txHash := log.transactionHash.getD ""
  match extractAddress log.topic1 log.topics 1, extractAddress log.topic2 log.topics 2 with
  | .ok senderAddress, .ok toAddress =>
    .ok { blockNumber := match bn with | some n => Nat.repr n | none => ""
          timestamp := timestamp
          txHash := txHash
          senderAddress := senderAddress
          toAddress := toAddress
          amount0 := (decodeAmounts log.data).1
          amount1 := (decodeAmounts log.data).2
          eventType := eventType }
  | .error e, _ => .error e
  | _, .error e => .error e

/-- CSV serialisation of a first-script row (line 152). -/
def csvRow (r : Row) : String :=
  r.blockNumber ++ "," ++ r.timestamp ++ "," ++ r.txHash ++ "," ++ r.fromAddress ++ ","
    ++ r.toAddress ++ "," ++ r.amount

/-- CSV serialisation of a second-script row (line 354). -/
def csvRow2 (r : Row2) : String :=
  r.blockNumber ++ "," ++ r.timestamp ++ "," ++ r.txHash ++ "," ++ r.senderAddress ++ ","
    ++ r.toAddress ++ "," ++ r.amount0 ++ "," ++ r.amount1 ++ "," ++ r.eventType

/-- Header line of the first script's CSV file. -/
def CSV_HEADERS : String := "block_number,timestamp,tx_hash,from_address,to_address,amount"

/-- Header line of the second script's CSV file. -/
def CSV_HEADERS2 : String :=
  "block_number,timestamp,tx_hash,sender_address,to_address,amount0,amount1,event_type"

/-- Per-log processing followed by CSV serialisation, first script: the line
appended by `fs.appendFileSync` on success. -/
def logLine (blocks : List BlockRecord) (log : LogRecord) : Except Unit String :=
  (processLog blocks log).map csvRow

/-- Per-log processing followed by CSV serialisation, second script. -/
def logLine2 (eventType : String) (blocks : List BlockRecord) (log : LogRecord) :
    Except Unit String :=
  (processLog2 eventType blocks log).map csvRow2

/-- The `data` member of one streamed response: optional `logs` and `blocks`
arrays. -/
structure BatchData where
  logs : Option (List LogRecord)
  blocks : Option (List BlockRecord)
  deriving DecidableEq

/-- One non-null response of `stream.recv()`: optional `data` and the
`nextBlock` cursor hint. -/
structure Batch where
  data : Option BatchData
  nextBlock : Option Nat
  deriving DecidableEq

/-- Logs carried by a batch (empty when `data` or `data.logs` is absent). -/
def batchLogs (b : Batch) : List LogRecord := ((b.data.bind BatchData.logs).getD [])

/-- Blocks carried by a batch (empty when `data` or `data.blocks` is absent;
`find?` over the empty list models `blocks?.find(...)` on `undefined`). -/
def batchBlocks (b : Batch) : List BlockRecord := ((b.data.bind BatchData.blocks).getD [])

/-- Cursor update after one batch (lines 162–165): `if (res.nextBlock)
query.fromBlock = res.nextBlock` — the hint is adopted exactly when present
and non-zero (`0` is falsy), otherwise the cursor is unchanged. -/
def cursorStep (fromBlock : Nat) (nextBlock : Option Nat) : Nat :=
  match nextBlock with
  | some n => if n = 0 then fromBlock else n
  | none => fromBlock

/-- One step of `stream.recv()`: a batch, the `null` end-of-chain sentinel, or
a thrown transport/service error. -/
inductive ServiceResp where
  | batch : Batch → ServiceResp
  | eos : ServiceResp
  | err : ServiceResp
  deriving DecidableEq

/-- Observable final state of a run: the output file (as its list of lines),
the running event counter, the final cursor, the cursor value recorded after
each processed batch, and the process exit code. -/
structure RunResult where
  file : List String
  totalEvents : Nat
  fromBlock : Nat
  cursorTrace : List Nat
  exitCode : Nat
  deriving DecidableEq

section Pipeline

variable (proc : List BlockRecord → LogRecord → Except Unit String)

/-- The per-log loop (lines 104–159): on success append one line to the file,
on a caught exception skip the log and continue with the next one. -/
def emitLogs (blocks : List BlockRecord) (file : List String) :
    List LogRecord → List String
  | [] => file
  | l :: ls =>
    match proc blocks l with
    | .ok line => emitLogs blocks (file ++ [line]) ls
    | .error _ => emitLogs blocks file ls

/-- Per-batch processing (lines 100–160): when `data` and `data.logs` are
present, bump the event counter by the full log count and run the per-log
loop; otherwise leave file and counter unchanged. -/
def emitBatch (file : List String) (totalEvents : Nat) (b : Batch) :
    List String × Nat :=
  match b.data with
  | some d =>
    match d.logs with
    | some logs => (emitLogs proc (d.blocks.getD []) file logs, totalEvents + logs.length)
    | none => (file, totalEvents)
  | none => (file, totalEvents)

/-- The streaming loop (lines 76–175): consume responses until the `null`
sentinel (normal termination, exit 0) or a thrown transport error (fatal,
exit 1 via the top-level `catch`); per batch, process logs then advance the
cursor.  An exhausted response list is treated as end-of-stream (a real
service always ends with the sentinel or an error). -/
def emitLoop (file : List String) (totalEvents fromBlock : Nat) (trace : List Nat) :
    List ServiceResp → RunResult
  | [] => ⟨file, totalEvents, fromBlock, trace, 0⟩
  | .eos :: _ => ⟨file, totalEvents, fromBlock, trace, 0⟩
  | .err :: _ => ⟨file, totalEvents, fromBlock, trace, 1⟩
  | .batch b :: rest =>
    let p := emitBatch proc file totalEvents b
    let fb := cursorStep fromBlock b.nextBlock
    emitLoop p.1 p.2 fb (trace ++ [fb]) rest

end Pipeline

/-- The first script's `main` (lines 61–188): write the header, then stream
from block 11203124. -/
def runMain (resps : List ServiceResp) : RunResult :=
  emitLoop logLine [CSV_HEADERS] 0 11203124 [] resps

/-- One `processEvents(eventType, topic0)` pass of the second script (lines
256–386), appending to an already initialised file. -/
def runEvents (eventType : String) (file : List String) (resps : List ServiceResp) :
    RunResult :=
  emitLoop (logLine2 eventType) file 0 11203124 [] resps

/-- The second script's `main` (lines 388–411): write the single header, run
the `mint` pass, then — only if it did not throw — the `burn` pass over the
same file. -/
def runMainMintBurn (mintResps burnResps : List ServiceResp) : RunResult :=
  let r1 := runEvents "mint" [CSV_HEADERS2] mintResps
  if r1.exitCode = 0 then runEvents "burn" r1.file burnResps else r1

/-! ### Derived observables -/

/-- Lines emitted for a list of logs: one per log whose processing succeeded. -/
def emitRows (proc : List BlockRecord → LogRecord → Except Unit String)
    (blocks : List BlockRecord) (logs : List LogRecord) : List String :=
  logs.filterMap fun l => (proc blocks l).toOption

/-- Whether the first script's per-log processing of `l` completes without an
exception. -/
def logOk (blocks : List BlockRecord) (l : LogRecord) : Bool :=
  ((processLog blocks l).toOption).isSome

/-- The batches a run actually processes: the prefix of the response list up
to (excluding) the first end-of-chain sentinel or transport error. -/
def processedBatches : List ServiceResp → List Batch
  | [] => []
  | .eos :: _ => []
  | .err :: _ => []
  | .batch b :: rest => b :: processedBatches rest

/-- All lines a run appends after the header. -/
def runRows (proc : List BlockRecord → LogRecord → Except Unit String) :
    List ServiceResp → List String
  | [] => []
  | .eos :: _ => []
  | .err :: _ => []
  | .batch b :: rest => emitRows proc (batchBlocks b) (batchLogs b) ++ runRows proc rest

/-- Cursor values after each batch, given the start cursor and the sequence of
`nextBlock` hints. -/
def cursorTraceOf (c : Nat) : List (Option Nat) → List Nat
  | [] => []
  | h :: hs => cursorStep c h :: cursorTraceOf (cursorStep c h) hs

/-! ### Structural lemmas -/

theorem emitLogs_eq_append (proc : List BlockRecord → LogRecord → Except Unit String)
    (blocks : List BlockRecord) (logs : List LogRecord) :
    ∀ file : List String, emitLogs proc blocks file logs = file ++ emitRows proc blocks logs := by
  induction logs with
  | nil => intro file; simp [emitLogs, emitRows]
  | cons l ls ih =>
    intro file
    cases h : proc blocks l with
    | ok line => simp [emitLogs, h, emitRows, Except.toOption, ih]
    | error e => simp [emitLogs, h, emitRows, Except.toOption, ih]

theorem emitRows_length (proc : List BlockRecord → LogRecord → Except Unit String)
    (blocks : List BlockRecord) (logs : List LogRecord) :
    (emitRows proc blocks logs).length
      = logs.countP fun l => ((proc blocks l).toOption).isSome := by
  induction logs with
  | nil => simp [emitRows]
  | cons l ls ih =>
    cases h : proc blocks l with
    | ok line => simp [emitRows, List.countP_cons, h, Except.toOption] at ih ⊢; omega
    | error e => simp [emitRows, List.countP_cons, h, Except.toOption] at ih ⊢; omega

theorem emitBatch_fst (proc : List BlockRecord → LogRecord → Except Unit String)
    (file : List String) (te : Nat) (b : Batch) :
    (emitBatch proc file te b).1 = file ++ emitRows proc (batchBlocks b) (batchLogs b) := by
  obtain ⟨data, nb⟩ := b
  cases data with
  | none => simp [emitBatch, batchLogs, batchBlocks, emitRows]
  | some d =>
    cases hl : d.logs with
    | none => simp [emitBatch, hl, batchLogs, batchBlocks, emitRows]
    | some logs =>
      simp [emitBatch, hl, batchLogs, batchBlocks, emitLogs_eq_append]

theorem emitBatch_snd (proc : List BlockRecord → LogRecord → Except Unit String)
    (file : List String) (te : Nat) (b : Batch) :
    (emitBatch proc file te b).2 = te + (batchLogs b).length := by
  obtain ⟨data, nb⟩ := b
  cases data with
  | none => simp [emitBatch, batchLogs]
  | some d =>
    cases hl : d.logs with
    | none => simp [emitBatch, hl, batchLogs]
    | some logs => simp [emitBatch, hl, batchLogs]

theorem emitLoop_file (proc : List BlockRecord → LogRecord → Except Unit String)
    (resps : List ServiceResp) :
    ∀ (file : List String) (te fb : Nat) (tr : List Nat),
      (emitLoop proc file te fb tr resps).file = file ++ runRows proc resps := by
  induction resps with
  | nil => intro file te fb tr; simp [emitLoop, runRows]
  | cons r rest ih =>
    intro file te fb tr
    cases r with
    | eos => simp [emitLoop, runRows]
    | err => simp [emitLoop, runRows]
    | batch b =>
      simp only [emitLoop, runRows]
      rw [ih, emitBatch_fst, List.append_assoc]

theorem emitLoop_totalEvents (proc : List BlockRecord → LogRecord → Except Unit String)
    (resps : List ServiceResp) :
    ∀ (file : List String) (te fb : Nat) (tr : List Nat),
      (emitLoop proc file te fb tr resps).totalEvents
        = te + ((processedBatches resps).map fun b => (batchLogs b).length).sum := by
  induction resps with
  | nil => intro file te fb tr; simp [emitLoop, processedBatches]
  | cons r rest ih =>
    intro file te fb tr
    cases r with
    | eos => simp [emitLoop, processedBatches]
    | err => simp [emitLoop, processedBatches]
    | batch b =>
      simp only [emitLoop, processedBatches, List.map_cons, List.sum_cons]
      rw [ih, emitBatch_snd]
      omega

theorem emitLoop_trace (proc : List BlockRecord → LogRecord → Except Unit String)
    (resps : List ServiceResp) :
    ∀ (file : List String) (te fb : Nat) (tr : List Nat),
      (emitLoop proc file te fb tr resps).cursorTrace
        = tr ++ cursorTraceOf fb ((processedBatches resps).map Batch.nextBlock) := by
  induction resps with
  | nil => intro file te fb tr; simp [emitLoop, processedBatches, cursorTraceOf]
  | cons r rest ih =>
    intro file te fb tr
    cases r with
    | eos => simp [emitLoop, processedBatches, cursorTraceOf]
    | err => simp [emitLoop, processedBatches, cursorTraceOf]
    | batch b =>
      simp only [emitLoop, processedBatches, List.map_cons, cursorTraceOf]
      rw [ih, List.append_assoc]
      rfl

theorem emitLoop_exit_of_err (proc : List BlockRecord → LogRecord → Except Unit String)
    (bs : List Batch) :
    ∀ (rest : List ServiceResp) (file : List String) (te fb : Nat) (tr : List Nat),
      (emitLoop proc file te fb tr (bs.map ServiceResp.batch ++ ServiceResp.err :: rest)).exitCode
        = 1 := by
  induction bs with
  | nil => intro rest file te fb tr; simp [emitLoop]
  | cons b bs ih => intro rest file te fb tr; simp only [List.map_cons, List.cons_append, emitLoop]; exact ih ..

theorem runRows_err_eq_eos (proc : List BlockRecord → LogRecord → Except Unit String)
    (bs : List Batch) (rest : List ServiceResp) :
    runRows proc (bs.map ServiceResp.batch ++ ServiceResp.err :: rest)
      = runRows proc (bs.map ServiceResp.batch ++ [ServiceResp.eos]) := by
  induction bs with
  | nil => simp [runRows]
  | cons b bs ih => simp only [List.map_cons, List.cons_append, runRows, List.append_eq]; rw [ih]

/-! ### Per-log lemmas -/

theorem processLog_ok_fields {blocks : List BlockRecord} {log : LogRecord} {r : Row}
    (h : processLog blocks log = .ok r) :
    r.blockNumber = (match jsNumOrEmpty log.blockNumber with | some n => Nat.repr n | none => "")
    ∧ r.timestamp = (((blocks.find? fun b => jsNumOrEmpty log.blockNumber == some b.number).bind
        BlockRecord.timestamp).getD "")
    ∧ extractAddress log.topic1 log.topics 1 = .ok r.fromAddress
    ∧ extractAddress log.topic2 log.topics 2 = .ok r.toAddress
    ∧ r.amount = decodeAmount log.data := by
  cases h1 : extractAddress log.topic1 log.topics 1 with
  | error e => simp only [processLog, h1] at h; exact Except.noConfusion h
  | ok fa =>
    cases h2 : extractAddress log.topic2 log.topics 2 with
    | error e => simp only [processLog, h1, h2] at h; exact Except.noConfusion h
    | ok ta =>
      simp only [processLog, h1, h2, Except.ok.injEq] at h
      subst h
      exact ⟨rfl, rfl, rfl, rfl, rfl⟩

theorem processLog2_ok_fields {et : String} {blocks : List BlockRecord} {log : LogRecord}
    {r : Row2} (h : processLog2 et blocks log = .ok r) :
    r.blockNumber = (match jsNumOrEmpty log.blockNumber with | some n => Nat.repr n | none => "")
    ∧ r.timestamp = (((blocks.find? fun b => jsNumOrEmpty log.blockNumber == some b.number).bind
        BlockRecord.timestamp).getD "")
    ∧ extractAddress log.topic1 log.topics 1 = .ok r.senderAddress
    ∧ extractAddress log.topic2 log.topics 2 = .ok r.toAddress
    ∧ r.amount0 = (decodeAmounts log.data).1 ∧ r.amount1 = (decodeAmounts log.data).2
    ∧ r.eventType = et := by
  cases h1 : extractAddress log.topic1 log.topics 1 with
  | error e => simp only [processLog2, h1] at h; exact Except.noConfusion h
  | ok fa =>
    cases h2 : extractAddress log.topic2 log.topics 2 with
    | error e => simp only [processLog2, h1, h2] at h; exact Except.noConfusion h
    | ok ta =>
      simp only [processLog2, h1, h2, Except.ok.injEq] at h
      subst h
      exact ⟨rfl, rfl, rfl, rfl, rfl, rfl, rfl⟩

theorem logOk_blocks_indep (blocks blocks' : List BlockRecord) (log : LogRecord) :
    logOk blocks log = logOk blocks' log := by
  unfold logOk
  cases h1 : extractAddress log.topic1 log.topics 1 <;>
    cases h2 : extractAddress log.topic2 log.topics 2 <;>
      simp [processLog, h1, h2, Except.toOption]

theorem logLine_isSome (blocks : List BlockRecord) (l : LogRecord) :
    ((logLine blocks l).toOption).isSome = logOk blocks l := by
  cases h : processLog blocks l <;> simp [logLine, logOk, h, Except.toOption, Except.map]

theorem mem_emitRows_logLine {line : String} {blocks : List BlockRecord}
    {logs : List LogRecord} (h : line ∈ emitRows logLine blocks logs) :
    ∃ l ∈ logs, ∃ r : Row, processLog blocks l = .ok r ∧ line = csvRow r := by
  rw [emitRows, List.mem_filterMap] at h
  obtain ⟨l, hl, hline⟩ := h
  cases hp : processLog blocks l with
  | error e => rw [logLine, hp] at hline; exact Option.noConfusion hline
  | ok r =>
    rw [logLine, hp] at hline
    exact ⟨l, hl, r, hp, (Option.some.injEq ..).mp hline |>.symm⟩

theorem mem_emitRows_logLine2 {et line : String} {blocks : List BlockRecord}
    {logs : List LogRecord} (h : line ∈ emitRows (logLine2 et) blocks logs) :
    ∃ l ∈ logs, ∃ r : Row2, processLog2 et blocks l = .ok r ∧ line = csvRow2 r := by
  rw [emitRows, List.mem_filterMap] at h
  obtain ⟨l, hl, hline⟩ := h
  cases hp : processLog2 et blocks l with
  | error e => rw [logLine2, hp] at hline; exact Option.noConfusion hline
  | ok r =>
    rw [logLine2, hp] at hline
    exact ⟨l, hl, r, hp, (Option.some.injEq ..).mp hline |>.symm⟩

theorem mem_runRows {proc : List BlockRecord → LogRecord → Except Unit String}
    {line : String} {resps : List ServiceResp} (h : line ∈ runRows proc resps) :
    ∃ b ∈ processedBatches resps, line ∈ emitRows proc (batchBlocks b) (batchLogs b) := by
  induction resps with
  | nil => simp [runRows] at h
  | cons r rest ih =>
    cases r with
    | eos => simp [runRows] at h
    | err => simp [runRows] at h
    | batch b =>
      rw [runRows, List.mem_append] at h
      rcases h with h | h
      · exact ⟨b, by simp [processedBatches], h⟩
      · obtain ⟨b', hb', hline⟩ := ih h
        exact ⟨b', by simp [processedBatches, hb'], hline⟩

/-! ### Decimal rendering and the header line -/

theorem digitChar_isDigit {n : Nat} (h : n < 10) : (Nat.digitChar n).isDigit = true := by
  interval_cases n <;> decide

theorem toDigitsCore_digits (f : Nat) :
    ∀ (n : Nat) (ds : List Char), (∀ c ∈ ds, c.isDigit = true) →
      ∀ c ∈ Nat.toDigitsCore 10 f n ds, c.isDigit = true := by
  induction f with
  | zero => intro n ds hds; simpa [Nat.toDigitsCore] using hds
  | succ f ih =>
    intro n ds hds
    simp only [Nat.toDigitsCore]
    split
    · intro c hc
      rcases List.mem_cons.mp hc with rfl | hc
      · exact digitChar_isDigit (Nat.mod_lt n (by norm_num))
      · exact hds c hc
    · exact ih (n / 10) _ (by
        intro c hc
        rcases List.mem_cons.mp hc with rfl | hc
        · exact digitChar_isDigit (Nat.mod_lt n (by norm_num))
        · exact hds c hc)

theorem repr_data_digits (n : Nat) : ∀ c ∈ (Nat.repr n).data, c.isDigit = true := by
  intro c hc
  exact toDigitsCore_digits (n + 1) n [] (by simp) c hc

theorem csvRow_ne_header (r : Row)
    (hbn : r.blockNumber = "" ∨ ∃ n, r.blockNumber = Nat.repr n) :
    csvRow r ≠ CSV_HEADERS := by
  intro h
  have hcomma : ("," : String).data = [','] := rfl
  have hh : (csvRow r).data.head? = some 'b' := by rw [h]; decide
  rw [csvRow] at hh
  simp only [String.data_append, hcomma, List.append_assoc, List.singleton_append,
    List.cons_append] at hh
  rcases hbn with hbn | ⟨n, hbn⟩
  · rw [hbn] at hh
    simp only [show ("" : String).data = [] from rfl, List.nil_append, List.head?_cons] at hh
    exact absurd hh (by decide)
  · rw [hbn] at hh
    cases hrd : (Nat.repr n).data with
    | nil =>
      rw [hrd] at hh
      simp only [List.nil_append, List.head?_cons] at hh
      exact absurd hh (by decide)
    | cons c cs =>
      rw [hrd] at hh
      simp only [List.cons_append, List.head?_cons, Option.some.injEq] at hh
      have hdig : c.isDigit = true :=
        repr_data_digits n c (by rw [hrd]; exact List.mem_cons_self c cs)
      rw [hh] at hdig
      exact absurd hdig (by decide)

theorem csvRow2_ne_header (r : Row2)
    (hbn : r.blockNumber = "" ∨ ∃ n, r.blockNumber = Nat.repr n) :
    csvRow2 r ≠ CSV_HEADERS2 := by
  intro h
  have hcomma : ("," : String).data = [','] := rfl
  have hh : (csvRow2 r).data.head? = some 'b' := by rw [h]; decide
  rw [csvRow2] at hh
  simp only [String.data_append, hcomma, List.append_assoc, List.singleton_append,
    List.cons_append] at hh
  rcases hbn with hbn | ⟨n, hbn⟩
  · rw [hbn] at hh
    simp only [show ("" : String).data = [] from rfl, List.nil_append, List.head?_cons] at hh
    exact absurd hh (by decide)
  · rw [hbn] at hh
    cases hrd : (Nat.repr n).data with
    | nil =>
      rw [hrd] at hh
      simp only [List.nil_append, List.head?_cons] at hh
      exact absurd hh (by decide)
    | cons c cs =>
      rw [hrd] at hh
      simp only [List.cons_append, List.head?_cons, Option.some.injEq] at hh
      have hdig : c.isDigit = true :=
        repr_data_digits n c (by rw [hrd]; exact List.mem_cons_self c cs)
      rw [hh] at hdig
      exact absurd hdig (by decide)

/-! ### Cursor lemmas -/

theorem cursorStep_eq_getD (c : Nat) (h : Option Nat) :
    cursorStep c h = (jsNumOrEmpty h).getD c := by
  cases h with
  | none => rfl
  | some n => by_cases hn : n = 0 <;> simp [cursorStep, jsNumOrEmpty, hn]

theorem cursorTraceOf_getElem? (hs : List (Option Nat)) :
    ∀ (c i n : Nat), hs[i]? = some (some n) → n ≠ 0 →
      (cursorTraceOf c hs)[i]? = some n := by
  induction hs with
  | nil => intro c i n h _; simp at h
  | cons h t ih =>
    intro c i n hi hn
    cases i with
    | zero =>
      rw [List.getElem?_cons_zero, Option.some.injEq] at hi
      subst hi
      rw [cursorTraceOf, cursorStep, List.getElem?_cons_zero]
      simp [hn]
    | succ j =>
      rw [List.getElem?_cons_succ] at hi
      rw [cursorTraceOf, List.getElem?_cons_succ]
      exact ih (cursorStep c h) j n hi hn

theorem cursorTraceOf_chain (hs : List (Option Nat)) :
    ∀ c : Nat, (∀ n ∈ hs.filterMap jsNumOrEmpty, c ≤ n) →
      List.Pairwise (· ≤ ·) (hs.filterMap jsNumOrEmpty) →
      List.Chain' (· ≤ ·) (c :: cursorTraceOf c hs) := by
  induction hs with
  | nil => intro c _ _; simp [cursorTraceOf]
  | cons h t ih =>
    intro c h1 h2
    cases hh : jsNumOrEmpty h with
    | none =>
      have hstep : cursorStep c h = c := by rw [cursorStep_eq_getD, hh]; rfl
      rw [cursorTraceOf, hstep, List.chain'_cons]
      refine ⟨le_refl c, ih c ?_ ?_⟩
      · intro n hn; exact h1 n (by rwa [List.filterMap_cons_none hh])
      · rwa [List.filterMap_cons_none hh] at h2
    | some m =>
      have hstep : cursorStep c h = m := by rw [cursorStep_eq_getD, hh]; rfl
      rw [List.filterMap_cons_some hh] at h1 h2
      rw [cursorTraceOf, hstep, List.chain'_cons]
      refine ⟨h1 m (List.mem_cons_self ..), ih m ?_ ?_⟩
      · exact (List.pairwise_cons.mp h2).1
      · exact (List.pairwise_cons.mp h2).2

/-! ### Counting lemmas -/

theorem countP_bool_split {α : Type} (p : α → Bool) (l : List α) :
    l.countP p + l.countP (fun a => !(p a)) = l.length := by
  induction l with
  | nil => simp
  | cons a l ih => cases h : p a <;> simp [List.countP_cons, h] <;> omega

theorem sum_map_le_and_eq_iff {ι : Type} (bs : List ι) (f g : ι → Nat)
    (hfg : ∀ b, f b ≤ g b) :
    (bs.map f).sum ≤ (bs.map g).sum ∧
      ((bs.map f).sum = (bs.map g).sum ↔ ∀ b ∈ bs, f b = g b) := by
  induction bs with
  | nil => simp
  | cons b bs ih =>
    simp only [List.map_cons, List.sum_cons, List.mem_cons]
    have h1 := hfg b
    have h2 := ih.1
    refine ⟨Nat.add_le_add h1 h2, ?_, ?_⟩
    · intro h
      have hfb : f b = g b := by omega
      have hsum : (bs.map f).sum = (bs.map g).sum := by omega
      intro x hx
      rcases hx with rfl | hx
      · exact hfb
      · exact (ih.2.mp hsum) x hx
    · intro h
      rw [h b (Or.inl rfl), ih.2.mpr fun x hx => h x (Or.inr hx)]

/-! ### Hexadecimal parsing lemmas -/

/-- Digit values of a list of characters: `some` exactly when every character
is a hexadecimal digit. -/
def hexDigits? : List Char → Option (List Nat)
  | [] => some []
  | c :: l =>
    match hexDigitVal c, hexDigits? l with
    | some d, some ds => some (d :: ds)
    | _, _ => none

theorem char_toNat_le {c d : Char} (h : c ≤ d) : c.toNat ≤ d.toNat := by
  simp only [Char.le_def, UInt32.le_def, BitVec.le_def] at h
  exact h

theorem hexDigitVal_lt {c : Char} {d : Nat} (h : hexDigitVal c = some d) : d < 16 := by
  unfold hexDigitVal at h
  split_ifs at h with h1 h2 h3 <;> rw [Option.some.injEq] at h <;> subst h
  · have g := char_toNat_le h1.2
    have e9 : ('9' : Char).toNat = 57 := rfl
    have e0 : ('0' : Char).toNat = 48 := rfl
    omega
  · have g := char_toNat_le h2.2
    have ef : ('f' : Char).toNat = 102 := rfl
    have ea : ('a' : Char).toNat = 97 := rfl
    omega
  · have g := char_toNat_le h3.2
    have ef : ('F' : Char).toNat = 70 := rfl
    have ea : ('A' : Char).toNat = 65 := rfl
    omega

theorem hexDigits?_cons_some {c : Char} {t : List Char} {ds : List Nat}
    (h : hexDigits? (c :: t) = some ds) :
    ∃ d ds', hexDigitVal c = some d ∧ hexDigits? t = some ds' ∧ ds = d :: ds' := by
  rw [hexDigits?] at h
  cases hd : hexDigitVal c with
  | none => rw [hd] at h; exact Option.noConfusion h
  | some d =>
    cases ht : hexDigits? t with
    | none => rw [hd, ht] at h; exact Option.noConfusion h
    | some ds' =>
      rw [hd, ht, Option.some.injEq] at h
      exact ⟨d, ds', rfl, rfl, h.symm⟩

theorem hexDigits?_length : ∀ {l : List Char} {ds : List Nat},
    hexDigits? l = some ds → ds.length = l.length := by
  intro l
  induction l with
  | nil => intro ds h; rw [hexDigits?, Option.some.injEq] at h; subst h; rfl
  | cons c t ih =>
    intro ds h
    obtain ⟨d, ds', _, ht, rfl⟩ := hexDigits?_cons_some h
    simp [ih ht]

theorem hexDigits?_all_lt : ∀ {l : List Char} {ds : List Nat},
    hexDigits? l = some ds → ∀ d ∈ ds, d < 16 := by
  intro l
  induction l with
  | nil => intro ds h; rw [hexDigits?, Option.some.injEq] at h; subst h; simp
  | cons c t ih =>
    intro ds h
    obtain ⟨d, ds', hd, ht, rfl⟩ := hexDigits?_cons_some h
    intro x hx
    rcases List.mem_cons.mp hx with rfl | hx
    · exact hexDigitVal_lt hd
    · exact ih ht x hx

theorem hexDigits?_drop : ∀ {l : List Char} (k : Nat) {ds : List Nat},
    hexDigits? l = some ds → hexDigits? (l.drop k) = some (ds.drop k) := by
  intro l
  induction l with
  | nil =>
    intro k ds h
    rw [hexDigits?, Option.some.injEq] at h; subst h
    simp [hexDigits?]
  | cons c t ih =>
    intro k ds h
    obtain ⟨d, ds', hd, ht, rfl⟩ := hexDigits?_cons_some h
    cases k with
    | zero => simp [hexDigits?, hd, ht]
    | succ j =>
      simp only [List.drop_succ_cons]
      exact ih j ht

theorem hexValBE_lt {ds : List Nat} (h : ∀ d ∈ ds, d < 16) :
    hexValBE ds < 16 ^ ds.length := by
  induction ds with
  | nil => simp [hexValBE]
  | cons d t ih =>
    simp only [hexValBE, List.length_cons]
    have hd := h d (List.mem_cons_self ..)
    have ht := ih fun x hx => h x (List.mem_cons_of_mem _ hx)
    calc d * 16 ^ t.length + hexValBE t < d * 16 ^ t.length + 16 ^ t.length := by omega
      _ = (d + 1) * 16 ^ t.length := by ring
      _ ≤ 16 * 16 ^ t.length := Nat.mul_le_mul_right _ (by omega)
      _ = 16 ^ (t.length + 1) := by ring

theorem hexValBE_append (a b : List Nat) :
    hexValBE (a ++ b) = hexValBE a * 16 ^ b.length + hexValBE b := by
  induction a with
  | nil => simp [hexValBE]
  | cons d t ih =>
    rw [List.cons_append, hexValBE, hexValBE, ih, List.length_append]
    ring

theorem hexValBE_drop {ds : List Nat} (k : Nat) (h : ∀ d ∈ ds, d < 16) :
    hexValBE (ds.drop k) = hexValBE ds % 16 ^ (ds.length - k) := by
  have hlen : (ds.drop k).length = ds.length - k := List.length_drop ..
  have e1 : hexValBE (ds.take k ++ ds.drop k)
      = hexValBE (ds.take k) * 16 ^ (ds.drop k).length + hexValBE (ds.drop k) :=
    hexValBE_append ..
  rw [List.take_append_drop] at e1
  have hlt : hexValBE (ds.drop k) < 16 ^ (ds.length - k) := by
    have : hexValBE (ds.drop k) < 16 ^ (ds.drop k).length :=
      hexValBE_lt fun d hd => h d (List.mem_of_mem_drop hd)
    rwa [hlen] at this
  rw [e1, hlen,
    Nat.add_comm (hexValBE (List.take k ds) * 16 ^ (ds.length - k)) (hexValBE (List.drop k ds)),
    Nat.add_mul_mod_self_right, Nat.mod_eq_of_lt hlt]

theorem foldl_hex (l : List Char) :
    ∀ (ds : List Nat) (acc : Nat), hexDigits? l = some ds →
      l.foldl hexStep (some acc) = some (acc * 16 ^ l.length + hexValBE ds) := by
  induction l with
  | nil =>
    intro ds acc h
    rw [hexDigits?, Option.some.injEq] at h; subst h
    simp [hexValBE]
  | cons c t ih =>
    intro ds acc h
    obtain ⟨d, ds', hd, ht, rfl⟩ := hexDigits?_cons_some h
    have hstep : hexStep (some acc) c = some (acc * 16 + d) := by simp [hexStep, hd]
    rw [List.foldl_cons, hstep, ih ds' (acc * 16 + d) ht]
    have hlen : ds'.length = t.length := hexDigits?_length ht
    simp only [hexValBE, List.length_cons, hlen, Option.some.injEq]
    ring

theorem parseHex_eq {s : String} {ds : List Nat} (hne : s.data ≠ [])
    (h : hexDigits? s.data = some ds) : parseHex s = some (hexValBE ds) := by
  rw [parseHex, if_neg hne]
  have := foldl_hex s.data ds 0 h
  simpa using this

/-! ### Named instantiations for the first script -/

/-- The first script's per-batch processing (lines 100–160). -/
def processBatch (file : List String) (te : Nat) (b : Batch) : List String × Nat :=
  emitBatch logLine file te b

/-- The first script's per-log loop over a batch's logs (lines 104–159). -/
def processLogs (blocks : List BlockRecord) (file : List String) (logs : List LogRecord) :
    List String :=
  emitLogs logLine blocks file logs

/-- Whether a log's `topic0` is one of the accepted topic hashes of the query
(the filter the remote service applies on behalf of the query's `topics`
field). -/
def topicMatched (accepted : List String) (l : LogRecord) : Bool :=
  match l.topic0 with
  | some t => accepted.contains t
  | none => false

theorem runRows_length (proc : List BlockRecord → LogRecord → Except Unit String)
    (resps : List ServiceResp) :
    (runRows proc resps).length
      = ((processedBatches resps).map fun b =>
          (batchLogs b).countP fun l => ((proc (batchBlocks b) l).toOption).isSome).sum := by
  induction resps with
  | nil => simp [runRows, processedBatches]
  | cons r rest ih =>
    cases r with
    | eos => simp [runRows, processedBatches]
    | err => simp [runRows, processedBatches]
    | batch b =>
      simp only [runRows, processedBatches, List.map_cons, List.sum_cons, List.length_append]
      rw [ih, emitRows_length]

/-! ### Example fixtures used by witnesses -/

/-- A well-formed Transfer log: both topics present as 32-byte hex strings,
data word `0x64` = 100. -/
def logExOk : LogRecord :=
  { blockNumber := some 3
    transactionHash := some "0xabc"
    topic0 := some "0xddf2"
    topic1 := .str "0x0000000000000000000000001111111111111111111111111111111111111111"
    topic2 := .str "0x0000000000000000000000002222222222222222222222222222222222222222"
    topics := none
    data := some "0x64" }

/-- A malformed log whose `topic1` is a truthy non-string, so `.slice` throws
and the per-log handler catches. -/
def logExBad : LogRecord :=
  { blockNumber := some 3
    transactionHash := none
    topic0 := some "0xddf2"
    topic1 := .other
    topic2 := .und
    topics := none
    data := none }

/-- A batch with one decodable and one malformed log plus the matching block. -/
def batchEx : Batch :=
  { data := some { logs := some [logExOk, logExBad], blocks := some [⟨3, some "0x65a0"⟩] }
    nextBlock := some 100 }

/-! ### Claim theorems -/

/-- C1: for every batch processed by the pipeline loop, provided the service
honours the query's topic filter (every delivered log's `topic0` is an
accepted hash), the number of rows appended to the output sink after
processing the batch equals the number of logs whose `topic0` matched an
accepted hash minus the number of logs whose per-log processing raised a
decode error — one row per successfully decoded log, none for a skipped
log. -/
theorem rows_appended_eq_matched_minus_errors (accepted : List String)
    (file : List String) (te : Nat) (b : Batch)
    (hm : ∀ l ∈ batchLogs b, topicMatched accepted l = true) :
    ((processBatch file te b).1).length
      = file.length
        + ((batchLogs b).countP (topicMatched accepted)
            - (batchLogs b).countP fun l => !(logOk (batchBlocks b) l)) := by
  rw [processBatch, emitBatch_fst, List.length_append, emitRows_length]
  have hfun : (fun l => ((logLine (batchBlocks b) l).toOption).isSome)
      = logOk (batchBlocks b) := funext fun l => logLine_isSome (batchBlocks b) l
  rw [hfun, List.countP_eq_length.mpr hm]
  have := countP_bool_split (logOk (batchBlocks b)) (batchLogs b)
  omega

/-- Witness for C1 at a concrete batch: two matched logs, one decode error,
one appended row. -/
theorem rows_appended_eq_matched_minus_errors_witness :
    ((processBatch [CSV_HEADERS] 0 batchEx).1).length
      = [CSV_HEADERS].length
        + ((batchLogs batchEx).countP (topicMatched ["0xddf2"])
            - (batchLogs batchEx).countP fun l => !(logOk (batchBlocks batchEx) l)) :=
  rows_appended_eq_matched_minus_errors ["0xddf2"] [CSV_HEADERS] 0 batchEx (by decide)

/-- C7: a per-log exception is caught, produces no row (partial or
otherwise), leaves the sink exactly as the remaining logs alone would, and
processing continues with the next log of the same batch. -/
theorem decode_error_skips_log (blocks : List BlockRecord) (file : List String)
    (l : LogRecord) (ls : List LogRecord) (h : processLog blocks l = .error ()) :
    processLogs blocks file (l :: ls) = processLogs blocks file ls := by
  have hl : logLine blocks l = .error () := by rw [logLine, h]; rfl
  simp only [processLogs, emitLogs, hl]

/-- Witness for C7: the malformed log is skipped and the good log still
yields its row. -/
theorem decode_error_skips_log_witness :
    processLogs [⟨3, some "0x65a0"⟩] [CSV_HEADERS] [logExBad, logExOk]
      = processLogs [⟨3, some "0x65a0"⟩] [CSV_HEADERS] [logExOk] :=
  decode_error_skips_log [⟨3, some "0x65a0"⟩] [CSV_HEADERS] logExBad [logExOk] (by decide)

/-- C10: the running event counter is bumped by the full log count of each
batch (so it also counts logs whose decoding later fails), hence over any run
the number of appended rows is at most the reported event count, with
equality exactly when every processed log decoded successfully. -/
theorem event_counter_dominates_rows (resps : List ServiceResp) :
    (∀ (file : List String) (te : Nat) (b : Batch),
        (processBatch file te b).2 = te + (batchLogs b).length) ∧
    (runMain resps).file.length - 1 ≤ (runMain resps).totalEvents ∧
    ((runMain resps).file.length - 1 = (runMain resps).totalEvents ↔
      ∀ b ∈ processedBatches resps, ∀ l ∈ batchLogs b, logOk (batchBlocks b) l = true) := by
  have hfile : (runMain resps).file.length
      = 1 + ((processedBatches resps).map fun b =>
          (batchLogs b).countP (logOk (batchBlocks b))).sum := by
    rw [runMain, emitLoop_file, List.length_append, runRows_length]
    have hfun : ∀ b : Batch,
        ((batchLogs b).countP fun l => ((logLine (batchBlocks b) l).toOption).isSome)
          = (batchLogs b).countP (logOk (batchBlocks b)) := by
      intro b
      congr 1
      exact funext fun l => logLine_isSome (batchBlocks b) l
    simp only [hfun]
    rfl
  have hte : (runMain resps).totalEvents
      = ((processedBatches resps).map fun b => (batchLogs b).length).sum := by
    rw [runMain, emitLoop_totalEvents, Nat.zero_add]
  have hcomp := sum_map_le_and_eq_iff (processedBatches resps)
    (fun b => (batchLogs b).countP (logOk (batchBlocks b)))
    (fun b => (batchLogs b).length)
    (fun b => List.countP_le_length (logOk (batchBlocks b)))
  refine ⟨fun file te b => emitBatch_snd logLine file te b, ?_, ?_⟩
  · rw [hfile, hte]
    have h1 := hcomp.1
    omega
  · rw [hfile, hte, Nat.add_sub_cancel_left, hcomp.2]
    constructor
    · intro h b hb l hl
      exact List.countP_eq_length.mp (h b hb) l hl
    · intro h b hb
      exact List.countP_eq_length.mpr (h b hb)

/-- C6: a transport/service error during a batch fetch is not retried: the
run terminates with exit code 1, and the output file is exactly what a clean
run over the already-processed prefix would have left (all rows appended
before the failure remain, nothing after the error is consumed). -/
theorem fetch_error_is_fatal (bs : List Batch) (rest : List ServiceResp) :
    (runMain (bs.map ServiceResp.batch ++ ServiceResp.err :: rest)).exitCode = 1 ∧
    (runMain (bs.map ServiceResp.batch ++ ServiceResp.err :: rest)).file
      = (runMain (bs.map ServiceResp.batch ++ [ServiceResp.eos])).file := by
  constructor
  · exact emitLoop_exit_of_err logLine bs rest [CSV_HEADERS] 0 11203124 []
  · rw [runMain, runMain, emitLoop_file, emitLoop_file, runRows_err_eq_eos]

/-- C9: in every run — including the multi-schema mint/burn run, whose two
sequential passes share one file — the output file is the single header line
written at run start followed only by serialised data rows; the header line
occurs exactly once and precedes every data row. -/
theorem header_written_once (resps mintResps burnResps : List ServiceResp) :
    (∃ dataRows : List String,
      (runMain resps).file = CSV_HEADERS :: dataRows ∧
      (∀ line ∈ dataRows, ∃ r : Row, line = csvRow r) ∧
      (runMain resps).file.count CSV_HEADERS = 1) ∧
    (∃ dataRows : List String,
      (runMainMintBurn mintResps burnResps).file = CSV_HEADERS2 :: dataRows ∧
      (∀ line ∈ dataRows, ∃ r : Row2, line = csvRow2 r) ∧
      (runMainMintBurn mintResps burnResps).file.count CSV_HEADERS2 = 1) := by
  constructor
  · have h1 : (runMain resps).file = CSV_HEADERS :: runRows logLine resps := by
      rw [runMain, emitLoop_file]
      rfl
    have hmem : ∀ line ∈ runRows logLine resps, ∃ r : Row, line = csvRow r ∧
        (r.blockNumber = "" ∨ ∃ n, r.blockNumber = Nat.repr n) := by
      intro line hline
      obtain ⟨b, _, hline2⟩ := mem_runRows hline
      obtain ⟨l, _, r, hok, rfl⟩ := mem_emitRows_logLine hline2
      refine ⟨r, rfl, ?_⟩
      have hbn := (processLog_ok_fields hok).1
      cases hj : jsNumOrEmpty l.blockNumber with
      | some n => exact Or.inr ⟨n, by rw [hbn, hj]⟩
      | none => exact Or.inl (by rw [hbn, hj])
    refine ⟨runRows logLine resps, h1,
      fun line hl => (hmem line hl).imp fun r hr => hr.1, ?_⟩
    rw [h1, List.count_cons_self]
    have hz : (runRows logLine resps).count CSV_HEADERS = 0 := by
      rw [List.count_eq_zero]
      intro hmem2
      obtain ⟨r, hr, hshape⟩ := hmem CSV_HEADERS hmem2
      exact csvRow_ne_header r hshape hr.symm
    omega
  · have hmem2 : ∀ (et : String) (rs : List ServiceResp),
        ∀ line ∈ runRows (logLine2 et) rs, ∃ r : Row2, line = csvRow2 r ∧
          (r.blockNumber = "" ∨ ∃ n, r.blockNumber = Nat.repr n) := by
      intro et rs line hline
      obtain ⟨b, _, hline2⟩ := mem_runRows hline
      obtain ⟨l, _, r, hok, rfl⟩ := mem_emitRows_logLine2 hline2
      refine ⟨r, rfl, ?_⟩
      have hbn := (processLog2_ok_fields hok).1
      cases hj : jsNumOrEmpty l.blockNumber with
      | some n => exact Or.inr ⟨n, by rw [hbn, hj]⟩
      | none => exact Or.inl (by rw [hbn, hj])
    have hfile : ∃ dataRows : List String,
        (runMainMintBurn mintResps burnResps).file = CSV_HEADERS2 :: dataRows ∧
        ∀ line ∈ dataRows, ∃ r : Row2, line = csvRow2 r ∧
          (r.blockNumber = "" ∨ ∃ n, r.blockNumber = Nat.repr n) := by
      simp only [runMainMintBurn]
      by_cases hexit : (runEvents "mint" [CSV_HEADERS2] mintResps).exitCode = 0
      · rw [if_pos hexit]
        refine ⟨runRows (logLine2 "mint") mintResps ++ runRows (logLine2 "burn") burnResps,
          ?_, ?_⟩
        · rw [runEvents, emitLoop_file, runEvents, emitLoop_file]
          rfl
        · intro line hl
          rcases List.mem_append.mp hl with hl | hl
          · exact hmem2 "mint" mintResps line hl
          · exact hmem2 "burn" burnResps line hl
      · rw [if_neg hexit]
        refine ⟨runRows (logLine2 "mint") mintResps, ?_,
          fun line hl => hmem2 "mint" mintResps line hl⟩
        rw [runEvents, emitLoop_file]
        rfl
    obtain ⟨dataRows, hfeq, hall⟩ := hfile
    refine ⟨dataRows, hfeq, fun line hl => (hall line hl).imp fun r hr => hr.1, ?_⟩
    rw [hfeq, List.count_cons_self]
    have hz : dataRows.count CSV_HEADERS2 = 0 := by
      rw [List.count_eq_zero]
      intro hmem3
      obtain ⟨r, hr, hshape⟩ := hall CSV_HEADERS2 hmem3
      exact csvRow2_ne_header r hshape hr.symm
    omega

/-- C5 counterexample: the loop adopts the service's next-block hint verbatim
(`query.fromBlock = res.nextBlock`), so a service reporting hints 100 then 50
drives the cursor down: after two successful batches the recorded cursor
sequence is `[100, 50]`, which is not non-decreasing. -/
theorem cursor_monotonicity_counterexample :
    (runMain [.batch ⟨none, some 100⟩, .batch ⟨none, some 50⟩, .eos]).cursorTrace
        = [100, 50] ∧
    ¬ List.Chain' (· ≤ ·)
        ((runMain [.batch ⟨none, some 100⟩, .batch ⟨none, some 50⟩,
            .eos]).cursorTrace) := by
  have htr : (runMain [.batch ⟨none, some 100⟩, .batch ⟨none, some 50⟩,
      .eos]).cursorTrace = [100, 50] := by decide
  refine ⟨htr, fun hch => ?_⟩
  rw [htr] at hch
  exact absurd (List.chain'_cons.mp hch).1 (by omega)

/-- C5 amended: after each processed batch whose next-block hint is present
and non-zero the cursor equals that hint, and a batch with an absent or zero
hint leaves the cursor unchanged; consequently, whenever every present hint is
at least the initial start block and the present hints are mutually
non-decreasing, the cursor never decreases across the run. -/
theorem cursor_follows_hints (resps : List ServiceResp) :
    (runMain resps).cursorTrace
        = cursorTraceOf 11203124 ((processedBatches resps).map Batch.nextBlock) ∧
    (∀ i n : Nat, ((processedBatches resps).map Batch.nextBlock)[i]? = some (some n) →
        n ≠ 0 → (runMain resps).cursorTrace[i]? = some n) ∧
    ((∀ m ∈ ((processedBatches resps).map Batch.nextBlock).filterMap jsNumOrEmpty,
        11203124 ≤ m) →
      List.Pairwise (· ≤ ·)
        (((processedBatches resps).map Batch.nextBlock).filterMap jsNumOrEmpty) →
      List.Chain' (· ≤ ·) (11203124 :: (runMain resps).cursorTrace)) := by
  have h1 : (runMain resps).cursorTrace
      = cursorTraceOf 11203124 ((processedBatches resps).map Batch.nextBlock) := by
    rw [runMain, emitLoop_trace]
    rfl
  refine ⟨h1, ?_, ?_⟩
  · intro i n hi hn
    rw [h1]
    exact cursorTraceOf_getElem? _ 11203124 i n hi hn
  · intro hge hpw
    rw [h1]
    exact cursorTraceOf_chain _ 11203124 hge hpw

/-- Witness for the amended C5 on a concrete well-behaved hint sequence. -/
theorem cursor_follows_hints_witness :
    List.Chain' (· ≤ ·) (11203124 ::
      (runMain [.batch ⟨none, some 12000000⟩, .batch ⟨none, some 12500000⟩,
        .eos]).cursorTrace) :=
  (cursor_follows_hints _).2.2 (by decide) (by decide)

/-- C8 counterexample: a block record with matching number but an absent
timestamp is present in the batch, yet the emitted row's timestamp is empty —
refuting the claimed "non-empty if and only if a matching block was present"
equivalence (the code also requires the matching block to carry a truthy
timestamp). -/
theorem timestamp_iff_counterexample :
    ¬ ∀ (blocks : List BlockRecord) (log : LogRecord) (r : Row),
        processLog blocks log = .ok r →
        (r.timestamp ≠ "" ↔ ∃ b ∈ blocks, log.blockNumber = some b.number) := by
  intro h
  have h5 := h [⟨5, none⟩]
    { blockNumber := some 5, transactionHash := none, topic0 := none,
      topic1 := .und, topic2 := .und, topics := none, data := none }
    { blockNumber := "5", timestamp := "", txHash := "",
      fromAddress := "unknown", toAddress := "unknown", amount := "0" }
    (by decide)
  exact h5.mpr ⟨⟨5, none⟩, by simp, rfl⟩ rfl

/-- C8 amended: a row's timestamp is non-empty only if the batch contains a
block record whose number equals the log's (present, non-zero) block number
and whose own timestamp field is that non-empty value; when no block number
matches, the timestamp is the empty string; and in all cases the row is still
emitted (success does not depend on the batch's blocks) carrying its block
number. -/
theorem timestamp_join_amended (blocks : List BlockRecord) (log : LogRecord) :
    logOk blocks log = logOk [] log ∧
    ∀ r : Row, processLog blocks log = .ok r →
      (r.timestamp ≠ "" → ∃ b ∈ blocks, jsNumOrEmpty log.blockNumber = some b.number ∧
          b.timestamp = some r.timestamp) ∧
      ((∀ b ∈ blocks, jsNumOrEmpty log.blockNumber ≠ some b.number) → r.timestamp = "") ∧
      r.blockNumber
        = (match jsNumOrEmpty log.blockNumber with | some n => Nat.repr n | none => "") := by
  refine ⟨logOk_blocks_indep blocks [] log, ?_⟩
  intro r hok
  have hts := (processLog_ok_fields hok).2.1
  have hbn := (processLog_ok_fields hok).1
  refine ⟨?_, ?_, hbn⟩
  · intro hne
    cases hf : blocks.find? fun b => jsNumOrEmpty log.blockNumber == some b.number with
    | none => rw [hf] at hts; exact absurd hts hne
    | some b =>
      cases ht : b.timestamp with
      | none =>
        rw [hf] at hts
        simp only [Option.bind, ht] at hts
        exact absurd hts hne
      | some ts =>
        refine ⟨b, List.mem_of_find?_eq_some hf, ?_, ?_⟩
        · have hp := List.find?_some hf
          exact (beq_iff_eq ..).mp hp
        · rw [hf] at hts
          simp only [Option.bind, ht, Option.getD_some] at hts
          rw [ht, hts]
  · intro hall
    have hnone : (blocks.find? fun b => jsNumOrEmpty log.blockNumber == some b.number)
        = none := by
      rw [List.find?_eq_none]
      intro b hb
      rw [Bool.not_eq_true, beq_eq_false_iff_ne]
      exact hall b hb
    rw [hnone] at hts
    exact hts

/-- The row the first script produces for `logExOk` when no block data is
available. -/
def rowExOk : Row :=
  { blockNumber := "3", timestamp := "", txHash := "0xabc"
    fromAddress := "0x1111111111111111111111111111111111111111"
    toAddress := "0x2222222222222222222222222222222222222222"
    amount := "100" }

/-- Witness for the amended C8 at a concrete log with no matching block. -/
theorem timestamp_join_amended_witness : rowExOk.timestamp = "" :=
  ((timestamp_join_amended [] logExOk).2 rowExOk (by decide)).2.1 (by decide)

/-- The address rendering the source applies to a topic string:
`"0x" + t.slice(-40)`. -/
def lowAddr (t : String) : String := "0x" ++ ⟨t.data.drop (t.data.length - 40)⟩

theorem prefixed_ne_unknown (x : String) : ("0x" ++ x) ≠ "unknown" := by
  intro hx
  have hh : ("0x" ++ x).data.head? = some 'u' := by rw [hx]; rfl
  rw [String.data_append, show ("0x" : String).data = ['0', 'x'] from rfl,
    List.cons_append, List.head?_cons] at hh
  exact absurd hh (by decide)

/-- C2: the extracted participant address is `0x` plus the final 40 hex
characters of the topic string — for a 64-hex-digit topic these are its
low-order 20 bytes (value = topic value mod 16^40, rendered as a 0x-prefixed
40-hex-character, 42-character string, identically for a `0x`-prefixed topic);
the named slot is preferred and gives the same result as the topics-array
form; and when neither a named slot nor a sufficiently long topics array is
present the address is the literal `"unknown"` and the row is still produced,
never a failure. -/
theorem address_extraction_correct :
    (∀ (t : String) (topics : Option (List JsVal)) (i : Nat), t ≠ "" →
        extractAddress (.str t) topics i = .ok (lowAddr t)) ∧
    (∀ (ts : List JsVal) (t : String) (i : Nat), i < ts.length → ts.getD i .und = .str t →
        extractAddress .und (some ts) i = .ok (lowAddr t)) ∧
    (∀ (t : String) (ds : List Nat), hexDigits? t.data = some ds → ds.length = 64 →
        (lowAddr t).data.length = 42 ∧
        hexDigits? (t.data.drop (t.data.length - 40)) = some (ds.drop 24) ∧
        hexValBE (ds.drop 24) = hexValBE ds % 16 ^ 40) ∧
    (∀ h : String, h.data.length = 64 → lowAddr ("0x" ++ h) = lowAddr h) ∧
    (∀ i, extractAddress .und none i = .ok "unknown") ∧
    (∀ (ts : List JsVal) (i : Nat), ts.length ≤ i →
        extractAddress .und (some ts) i = .ok "unknown") ∧
    (∀ (blocks : List BlockRecord) (log : LogRecord), log.topic1 = .und → log.topic2 = .und →
        log.topics = none →
        ∃ r : Row, processLog blocks log = .ok r ∧
          r.fromAddress = "unknown" ∧ r.toAddress = "unknown") := by
  refine ⟨?_, ?_, ?_, ?_, ?_, ?_, ?_⟩
  · intro t topics i ht
    have hne := prefixed_ne_unknown (⟨t.data.drop (t.length - 40)⟩ : String)
    cases topics with
    | none => simp [extractAddress, JsVal.truthy, ht, JsVal.sliceLast40, lowAddr]
    | some ts => simp [extractAddress, JsVal.truthy, ht, JsVal.sliceLast40, lowAddr, hne]
  · intro ts t i hi hts
    have hts' : ts[i] = JsVal.str t := by
      rw [List.getD_eq_getElem?_getD, List.getElem?_eq_getElem hi, Option.getD_some] at hts
      exact hts
    simp [extractAddress, JsVal.truthy, hi, hts', JsVal.sliceLast40, lowAddr]
  · intro t ds h h64
    have hlen : ds.length = t.data.length := hexDigits?_length h
    have hlt : ∀ d ∈ ds, d < 16 := hexDigits?_all_lt h
    refine ⟨?_, ?_, ?_⟩
    · rw [lowAddr, String.data_append, List.length_append, List.length_drop,
        show ("0x" : String).data = ['0', 'x'] from rfl]
      show 2 + (t.data.length - (t.data.length - 40)) = 42
      omega
    · rw [show t.data.length - 40 = 24 from by omega]
      exact hexDigits?_drop 24 h
    · have hdrop := hexValBE_drop 24 hlt
      rw [hdrop, h64]
  · intro h h64
    rw [lowAddr, lowAddr]
    congr 2
    rw [String.data_append, show ("0x" : String).data = ['0', 'x'] from rfl,
      List.cons_append, List.cons_append, List.nil_append]
    rw [List.length_cons, List.length_cons, h64]
    rfl
  · intro i
    rfl
  · intro ts i hle
    have hni : ¬ i < ts.length := Nat.not_lt.mpr hle
    simp [extractAddress, JsVal.truthy, hni]
  · intro blocks log h1 h2 h3
    have e1 : extractAddress log.topic1 log.topics 1 = .ok "unknown" := by
      rw [h1, h3]; rfl
    have e2 : extractAddress log.topic2 log.topics 2 = .ok "unknown" := by
      rw [h2, h3]; rfl
    have hpl : processLog blocks log = .ok
        { blockNumber :=
            match jsNumOrEmpty log.blockNumber with | some n => Nat.repr n | none => ""
          timestamp := ((blocks.find? fun b =>
            jsNumOrEmpty log.blockNumber == some b.number).bind BlockRecord.timestamp).getD ""
          txHash := log.transactionHash.getD ""
          fromAddress := "unknown"
          toAddress := "unknown"
          amount := decodeAmount log.data } := by
      simp only [processLog, e1, e2]
    exact ⟨_, hpl, rfl, rfl⟩

/-- C2 witness: a concrete 66-character topic and its 64-hex-digit form. -/
theorem address_extraction_correct_witness :
    extractAddress
        (.str "0x0000000000000000000000001111111111111111111111111111111111111111") none 1
      = .ok (lowAddr "0x0000000000000000000000001111111111111111111111111111111111111111") ∧
    hexValBE ((List.replicate 24 0 ++ List.replicate 40 1).drop 24)
      = hexValBE (List.replicate 24 0 ++ List.replicate 40 1) % 16 ^ 40 :=
  ⟨address_extraction_correct.1
      "0x0000000000000000000000001111111111111111111111111111111111111111" none 1
      (by decide),
   (address_extraction_correct.2.2.1
      "0000000000000000000000001111111111111111111111111111111111111111" (List.replicate 24 0 ++ List.replicate 40 1)
      (by decide) (by decide)).2.2⟩

/-- C3: the first script interprets the whole `0x`-normalised data payload as
one big-endian unsigned integer rendered as a decimal string; the 62-digit
example payload decodes to `"100"`; and any payload whose integer parse fails
yields the string `"0"` instead of an error. -/
theorem single_amount_decode :
    (∀ (s : String) (ds : List Nat), hexDigits? (strip0x s).data = some ds →
        (strip0x s).data ≠ [] → decodeAmount (some s) = Nat.repr (hexValBE ds)) ∧
    decodeAmount
        (some "0x00000000000000000000000000000000000000000000000000000000000064") = "100" ∧
    (∀ s : String, parseHex (strip0x s) = none → decodeAmount (some s) = "0") := by
  refine ⟨?_, by decide, ?_⟩
  · intro s ds h hne
    have hs : s ≠ "" := by
      intro he
      subst he
      exact hne rfl
    simp only [decodeAmount, if_neg hs, parseHex_eq hne h]
  · intro s hp
    by_cases hs : s = ""
    · subst hs
      rfl
    · simp only [decodeAmount, if_neg hs, hp]

/-- A 128-hex-character dual-amount payload: first word 0x32 = 50, second
word 0x4b = 75. -/
def word5075 : String :=
  ⟨List.replicate 62 '0' ++ ['3', '2'] ++ List.replicate 62 '0' ++ ['4', 'b']⟩

set_option maxRecDepth 8000 in
/-- C4: when the `0x`-stripped payload holds at least 128 hex characters the
second script decodes hex characters 0–63 as `amount0` and 64–127 as
`amount1`, each a big-endian unsigned integer rendered in decimal (the words
50/75 example decodes to `("50", "75")`); any shorter payload yields
`("0", "0")`. -/
theorem dual_amount_decode :
    (∀ (s : String) (ds0 ds1 : List Nat), 128 ≤ (strip0x s).data.length →
        hexDigits? (jsSlice (strip0x s) 0 64).data = some ds0 →
        hexDigits? (jsSlice (strip0x s) 64 128).data = some ds1 →
        decodeAmounts (some s) = (Nat.repr (hexValBE ds0), Nat.repr (hexValBE ds1))) ∧
    decodeAmounts (some word5075) = ("50", "75") ∧
    (∀ s : String, (strip0x s).data.length < 128 → decodeAmounts (some s) = ("0", "0")) := by
  refine ⟨?_, by decide, ?_⟩
  · intro s ds0 ds1 hlen h0 h1
    have hs : s ≠ "" := by
      intro he
      subst he
      rw [show strip0x "" = "" from rfl] at hlen
      exact absurd hlen (by decide)
    have hne0 : (jsSlice (strip0x s) 0 64).data ≠ [] := by
      show ((strip0x s).data.take 64).drop 0 ≠ []
      rw [List.drop_zero]
      intro hc
      have hlc := congrArg List.length hc
      rw [List.length_take] at hlc
      simp only [List.length_nil] at hlc
      omega
    have hne1 : (jsSlice (strip0x s) 64 128).data ≠ [] := by
      show ((strip0x s).data.take 128).drop 64 ≠ []
      intro hc
      have hlc := congrArg List.length hc
      rw [List.length_drop, List.length_take] at hlc
      simp only [List.length_nil] at hlc
      omega
    simp only [decodeAmounts, if_neg hs, if_pos hlen, parseHex_eq hne0 h0,
      parseHex_eq hne1 h1]
  · intro s hlen
    by_cases hs : s = ""
    · subst hs
      rfl
    · simp only [decodeAmounts, if_neg hs, if_neg (by omega : ¬ 128 ≤ (strip0x s).data.length)]

/-- C3 witness: the payload `0x64` decodes through the general big-endian
clause to `Nat.repr 100`. -/
theorem single_amount_decode_witness :
    decodeAmount (some "0x64") = Nat.repr (hexValBE [6, 4]) :=
  single_amount_decode.1 "0x64" [6, 4] (by decide) (by decide)

set_option maxRecDepth 8000 in
/-- C4 witness: the 50/75 payload decodes through the general clause. -/
theorem dual_amount_decode_witness :
    decodeAmounts (some word5075)
      = (Nat.repr (hexValBE (List.replicate 62 0 ++ [3, 2])),
         Nat.repr (hexValBE (List.replicate 62 0 ++ [4, 11]))) :=
  dual_amount_decode.1 word5075 (List.replicate 62 0 ++ [3, 2])
    (List.replicate 62 0 ++ [4, 11]) (by decide) (by decide) (by decide)
